import Mathlib

/-!
Verification of the gitmess interactive commit-message composer
(src/main.py) against its natural-language specification.

Python strings are modelled as `List Char` and single keystrokes as
`Char` (Python's `ord` becomes `Char.toNat`).  The terminal painting
done by the program is I/O with no influence on the values the
functions return, so only returned data and raised exceptions are
modelled; a raised exception is represented by a dedicated result
constructor (or by `Option.none`).
-/

/- ------------------------------------------------------------------
   Shared small helpers
   ------------------------------------------------------------------ -/

/-- The two characters appended to the non-editable label by
`getInput` (the line `prefix += ': '` in src/main.py, line 439). -/
def colonSpace : List Char := [':', ' ']

/-- Python slicing `l[:stop]` for a possibly negative `stop`: a
negative stop counts from the end of the list, clamped at 0. -/
def pySliceTo (l : List Char) (stop : Int) : List Char :=
  if 0 ≤ stop then l.take stop.toNat else l.take (l.length - stop.natAbs)

/- ------------------------------------------------------------------
   The editor loop of getInput (src/main.py lines 396-506)
   ------------------------------------------------------------------ -/

/-- State of the editor loop of `getInput` (src/main.py lines 439-506):
the editable text `userInput`, the cursor offset `cursorPos` into the
full line (label plus `userInput`), and the escape-sequence countdown
`escapeNext`. -/
structure EditorState where
  userInput : List Char
  cursorPos : Nat
  escapeNext : Nat
deriving DecidableEq, Repr

/-- Result of processing one keystroke in the editor loop. -/
inductive StepResult where
  /-- the loop continues with the new state (any branch that does not
  `break` or `raise`) -/
  | more (s : EditorState)
  /-- the `break` on Enter (byte 13): the loop finishes with this state -/
  | finish (s : EditorState)
  /-- the `raise KeyboardInterrupt` on Ctrl-C (byte 3) -/
  | interrupt
deriving DecidableEq, Repr

/-- One iteration of the `while True` keystroke loop of `getInput`
(src/main.py lines 454-502), translated branch by branch.  `lenPre` is
the Python `lenPrefix` (length of the non-editable label including
`': '`) and `len0` the Python `length` argument.  Indices are natural
numbers: the cursor never sits left of the label (proved below), so
Python's negative-index behaviour is never exercised. -/
def step (lenPre len0 : Nat) (s : EditorState) (c : Char) : StepResult :=
  if 0 < s.escapeNext then
    -- escapeNext -= 1, then the byte is compared with the arrow codes
    if c.toNat = 68 ∧ lenPre < s.cursorPos then
      .more ⟨s.userInput, s.cursorPos - 1, s.escapeNext - 1⟩
    else if c.toNat = 67 ∧ s.cursorPos < lenPre + s.userInput.length then
      .more ⟨s.userInput, s.cursorPos + 1, s.escapeNext - 1⟩
    else
      .more ⟨s.userInput, s.cursorPos, s.escapeNext - 1⟩
  else if c.toNat = 127 then
    -- backspace: drop the character before the cursor, if any
    if 0 < s.cursorPos - lenPre then
      .more ⟨s.userInput.take (s.cursorPos - lenPre - 1)
               ++ s.userInput.drop (s.cursorPos - lenPre),
             s.cursorPos - 1, s.escapeNext⟩
    else
      .more s
  else if c.toNat = 13 then
    .finish s
  else if c.toNat = 27 then
    .more ⟨s.userInput, s.cursorPos, 2⟩
  else if c.toNat = 3 then
    .interrupt
  else if s.userInput.length + lenPre = len0 then
    -- already at the maximal length: the keystroke is dropped
    .more s
  else if 32 ≤ c.toNat then
    -- printable character: splice at the cursor
    .more ⟨s.userInput.take (s.cursorPos - lenPre)
             ++ c :: s.userInput.drop (s.cursorPos - lenPre),
           s.cursorPos + 1, s.escapeNext⟩
  else
    .more s

/-- The state after one keystroke, whatever the outcome (the `break`
on Enter and the `raise` on Ctrl-C both leave the state untouched). -/
def stepState (lenPre len0 : Nat) (s : EditorState) (c : Char) : EditorState :=
  match step lenPre len0 s c with
  | .more s' => s'
  | .finish s' => s'
  | .interrupt => s

/-- Result of running the whole editor loop on a list of keystrokes. -/
inductive LoopResult where
  | finished (s : EditorState)
  | interrupted
  /-- the supplied keystrokes ran out before Enter or Ctrl-C -/
  | exhausted (s : EditorState)
deriving DecidableEq, Repr

/-- The `while True` loop of `getInput`, fed from an explicit list of
keystrokes (each obtained by `getChar` in the source). -/
def runLoop (lenPre len0 : Nat) : EditorState → List Char → LoopResult
  | s, [] => .exhausted s
  | s, c :: cs =>
    match step lenPre len0 s c with
    | .more s' => runLoop lenPre len0 s' cs
    | .finish s' => .finished s'
    | .interrupt => .interrupted

/-- Initial editor state built by `getInput` (src/main.py lines
442-445): `pfx` is the full non-editable label (the caller's argument
with `': '` already appended), the seed text is truncated by the
Python slice `inputText[:(length - len(prefix))]`, and the cursor
starts after the seed. -/
def initState (pfx : List Char) (len0 : Nat) (inputText : List Char) : EditorState :=
  let userInput := pySliceTo inputText ((len0 : Int) - pfx.length)
  ⟨userInput, pfx.length + userInput.length, 0⟩

/-- Observable outcome of one `getInput` call. -/
inductive GetInputResult where
  /-- normal return `[prefix, userInput]` (src/main.py line 506) -/
  | done (pfx : List Char) (buf : List Char)
  /-- `KeyboardInterrupt` escaped to the caller -/
  | interrupted
  /-- the keystroke list ran out: the call is still blocked reading -/
  | pending
deriving DecidableEq, Repr

/-- The function `getInput` of src/main.py (lines 396-506), as a
function of the keystroke sequence.  The `blankChar` argument only
affects the painted fill padding, never the returned values, so it is
not a parameter here; painting itself is I/O and not modelled. -/
def getInput (p0 : List Char) (len0 : Nat) (inputText : List Char)
    (keys : List Char) : GetInputResult :=
  let pfx := p0 ++ colonSpace
  match runLoop pfx.length len0 (initState pfx len0 inputText) keys with
  | .finished s => .done pfx s.userInput
  | .interrupted => .interrupted
  | .exhausted _ => .pending

/-- The display line repainted after each keystroke (src/main.py lines
447 and 494): label, then the buffer, then the fill padding (a Python
negative string repetition is empty, matching truncated subtraction). -/
def messageLineOf (pfx userInput : List Char) (len0 : Nat) (blankChar : Char) : List Char :=
  pfx ++ userInput ++ List.replicate (len0 - userInput.length - pfx.length) blankChar

/- ------------------------------------------------------------------
   The wrapped renderer printMessageWrapped (src/main.py lines 509-560)
   ------------------------------------------------------------------ -/

/-- The function `printMessageWrapped` of src/main.py (lines 509-560).
`columns` is the polled terminal width (`shutil.get_terminal_size`),
from which the code computes `cols = columns - margin` with
`margin = 5` and, using Python floor division (`Int.fdiv` here, since
`cols` may be negative),

  `nlines     = len(message) // cols + 1`
  `cursorLine = cursorPos // cols`.

The printed rows are terminal I/O; the value returned is the pair
`(nlines, cursorLine)`.  Exceptions are modelled as `none`: a
`ZeroDivisionError` when `cols = 0`, and the `IndexError` of
`lines[cursorLine]` (line 558) when `cursorLine` is not a valid Python
index into `lines`, whose length is `max nlines 0` (`range(nlines)` is
empty for a non-positive `nlines`; a Python index `i` into a list of
length `n` is valid iff `-n ≤ i < n`).  The slice expressions
themselves (`message[idx*cols:(idx+1)*cols]`, `lines[:cursorLine]`,
`lines[cursorLine][:cursorPosLine]`) can never raise. -/
def printMessageWrapped (message : List Char) (cursorPos : Nat) (columns : Nat) :
    Option (Int × Int) :=
  let margin : Int := 5
  let cols : Int := (columns : Int) - margin
  if cols = 0 then none
  else
    let nlines : Int := Int.fdiv (message.length : Int) cols + 1
    let cursorLine : Int := Int.fdiv (cursorPos : Int) cols
    let numLines : Int := max nlines 0
    if -numLines ≤ cursorLine ∧ cursorLine < numLines then
      some (nlines, cursorLine)
    else
      none

/- ------------------------------------------------------------------
   The raw single-keystroke read getChar (src/main.py lines 368-393)
   ------------------------------------------------------------------ -/

/-- The controlling terminal as seen by `getChar`: its line-discipline
`settings` (an opaque code standing for the `termios` attribute list)
and the queue of not-yet-read input characters. -/
structure Terminal where
  settings : Nat
  pending : List Char
deriving DecidableEq, Repr

/-- The settings value installed by `tty.setraw`. -/
def rawSettings : Nat := 1

/-- `tty.setraw(fd)`: put the terminal in raw mode. -/
def setraw (t : Terminal) : Terminal :=
  ⟨rawSettings, t.pending⟩

/-- `termios.tcsetattr(fd, TCSADRAIN, old)`: install saved settings. -/
def tcsetattr (t : Terminal) (old : Nat) : Terminal :=
  ⟨old, t.pending⟩

/-- The function `getChar` of src/main.py (lines 368-393): save the
current settings, enter raw mode, read one character (`none` when the
stream is exhausted and `sys.stdin.read(1)` returns the empty string),
and restore the saved settings in the `finally` block — on the
end-of-stream path just as on the normal path. -/
def getChar (t : Terminal) : Option Char × Terminal :=
  let oldSettings := t.settings
  let t1 := setraw t
  match t1.pending with
  | [] => (none, tcsetattr t1 oldSettings)
  | c :: rest => (some c, tcsetattr ⟨t1.settings, rest⟩ oldSettings)

/- ------------------------------------------------------------------
   The assembler buildCommitMessage (src/main.py lines 330-365)
   and a model of the library call textwrap.wrap
   ------------------------------------------------------------------ -/

/-- Accumulator pass splitting a text into its maximal runs of
non-whitespace characters (the words that Python's
`textwrap.wrap` lays out). -/
def splitWordsAux : List Char → List Char → List (List Char)
  | [], cur => if cur = [] then [] else [cur.reverse]
  | c :: rest, cur =>
    if c.isWhitespace then
      if cur = [] then splitWordsAux rest []
      else cur.reverse :: splitWordsAux rest []
    else
      splitWordsAux rest (c :: cur)

/-- The whitespace-delimited words of a text. -/
def splitWords (text : List Char) : List (List Char) :=
  splitWordsAux text []

/-- Accumulator pass cutting one word into chunks of at most `w`
characters (`cur` is the reversed chunk being built, `k` its remaining
capacity). -/
def chunksAux (w : Nat) : List Char → List Char → Nat → List (List Char)
  | [], cur, _ => if cur = [] then [] else [cur.reverse]
  | c :: rest, cur, k =>
    match k with
    | 0 => cur.reverse :: chunksAux w rest [c] (w - 1)
    | k' + 1 => chunksAux w rest (c :: cur) k'

/-- A word cut into chunks of at most `w` characters (how
`textwrap.wrap` breaks a word longer than the width). -/
def chunksOf (w : Nat) (word : List Char) : List (List Char) :=
  chunksAux w word [] w

/-- Greedy line filling: append each word to the current line when it
still fits (counting one separating space), otherwise emit the line
and start a new one. -/
def fillGreedy (w : Nat) : List Char → List (List Char) → List (List Char)
  | cur, [] => if cur = [] then [] else [cur]
  | cur, word :: rest =>
    if cur = [] then fillGreedy w word rest
    else if cur.length + 1 + word.length ≤ w then
      fillGreedy w (cur ++ ' ' :: word) rest
    else
      cur :: fillGreedy w word rest

/-- Modelled from the spec: the library call `textwrap.wrap(text,
width)` used by `buildCommitMessage` is not part of the repository;
the spec only says the text is "word-wrapped to a configured width".
Modelled as the documented core of the Python function: split the text
into whitespace-delimited words, break any word longer than the width
into chunks of at most the width (at least 1), and fill lines
greedily.  Leading, trailing and repeated whitespace disappears, and
every produced line has at most `width` characters. -/
def textwrapWrap (text : List Char) (width : Nat) : List (List Char) :=
  fillGreedy width [] ((splitWords text).flatMap (chunksOf (max 1 width)))

/-- The function `buildCommitMessage` of src/main.py (lines 330-365).
Each of the four fields is the `[prefix, content]` pair returned by
`getInput`; of the `params` structure only `WrapLength` is read, so it
is the parameter `wrapLength` here.  A Python `if s:` test on a string
is the non-emptiness test. -/
def buildCommitMessage (title description issue breaking : List Char × List Char)
    (wrapLength : Nat) : List Char :=
  let message := title.1 ++ title.2
  let message := if description.2 ≠ [] then
      message ++ ['\n', '\n']
        ++ List.intercalate ['\n'] (textwrapWrap description.2 wrapLength)
    else message
  let message := if issue.2 ≠ [] then
      message ++ ['\n', '\n'] ++ issue.1 ++ colonSpace ++ issue.2
    else message
  let message := if breaking.2 ≠ [] then
      message ++ ['\n', '\n'] ++ breaking.1 ++ colonSpace ++ breaking.2
    else message
  message

/-- The assembler as claim C9 describes it (a second definition that
follows the claim's words, for comparison with `buildCommitMessage`
above): the long-form sections — the description AND the
breaking-change note — are word-wrapped to the configured width before
joining. -/
def claimBuildCommitMessage (title description issue breaking : List Char × List Char)
    (wrapLength : Nat) : List Char :=
  let message := title.1 ++ title.2
  let message := if description.2 ≠ [] then
      message ++ ['\n', '\n']
        ++ List.intercalate ['\n'] (textwrapWrap description.2 wrapLength)
    else message
  let message := if issue.2 ≠ [] then
      message ++ ['\n', '\n'] ++ issue.1 ++ colonSpace ++ issue.2
    else message
  let message := if breaking.2 ≠ [] then
      message ++ ['\n', '\n'] ++ breaking.1 ++ colonSpace
        ++ List.intercalate ['\n'] (textwrapWrap breaking.2 wrapLength)
    else message
  message

/- ------------------------------------------------------------------
   Counterexamples and concrete evaluations
   ------------------------------------------------------------------ -/

/-- Claim C1 is false as stated: on a line of length `L = 5` with
effective width `W = 10 - 5 = 5` the code reports
`rowCount = L // W + 1 = 2`, while `ceil(L / W) = 1`. -/
theorem printMessageWrapped_not_ceil :
    printMessageWrapped ['a', 'b', 'c', 'd', 'e'] 0 10 = some (2, 0) ∧
    ((5 + 5 - 1) / 5 : Nat) = 1 ∧ (2 : Int) ≠ ((1 : Nat) : Int) := by
  decide

/-- Claim C6's failing input evaluated on the code: at terminal width
5 the effective width is `5 - 5 = 0` — there is no flooring at 1 — and
`len(message) // cols` raises `ZeroDivisionError` (modelled `none`)
instead of rendering. -/
theorem printMessageWrapped_crash_width5 :
    printMessageWrapped ['a', 'b', 'c'] 0 5 = none := by
  decide

/-- Claim C2 is false as stated: for the bounded field with label
`"abc"` (so the prompt is `"abc: "`, length 5) and `maxLength = 3`,
one printable keystroke `'x'` leaves `len(prompt) + len(buffer) = 6 > 3`:
the capacity guard compares with `==`, which never fires when the
prompt alone already exceeds the ceiling. -/
theorem getInput_capacity_violated :
    stepState (['a', 'b', 'c', ':', ' '] : List Char).length 3
        (initState ['a', 'b', 'c', ':', ' '] 3 []) 'x' =
      EditorState.mk ['x'] 6 0 ∧
    ¬ ((EditorState.mk ['x'] 6 0).userInput.length
        + (['a', 'b', 'c', ':', ' '] : List Char).length ≤ 3) := by
  decide

/-- Claim C4 is false as stated: with the escape machine at
`remaining = 2`, the middle byte is NOT always discarded — the byte
`68` (`'D'`, the left-arrow final code) already moves the cursor from
4 to 3. -/
theorem escape_middle_byte_moves_cursor :
    step 2 80 (EditorState.mk ['a', 'b'] 4 2) 'D' =
      StepResult.more (EditorState.mk ['a', 'b'] 3 1) ∧
    (EditorState.mk ['a', 'b'] 3 1).cursorPos ≠
      (EditorState.mk ['a', 'b'] 4 2).cursorPos := by
  decide

/-- Claim C5 is false as stated: with `maxLength = 6` and the empty
label, the code still appends `': '` (prompt length 2), so typing
`"abcdef"` then `"g"` leaves the buffer `"abcd"`, not `"abcdef"`. -/
theorem getInput_scenario_not_abcdef :
    getInput [] 6 [] ['a', 'b', 'c', 'd', 'e', 'f', 'g', '\r'] =
      GetInputResult.done [':', ' '] ['a', 'b', 'c', 'd'] ∧
    (['a', 'b', 'c', 'd'] : List Char) ≠ ['a', 'b', 'c', 'd', 'e', 'f'] := by
  decide

/-- Claim C7 is false as stated: the character with code point 127
(DEL) satisfies `code ≥ 32` but is matched by the backspace branch
first, so processing it deletes instead of splicing it in. -/
theorem printable_del_not_insert :
    step 2 80 (EditorState.mk ['a', 'b'] 3 0) '\x7f' =
      StepResult.more (EditorState.mk ['b'] 2 0) ∧
    StepResult.more (EditorState.mk ['b'] 2 0) ≠
      StepResult.more (EditorState.mk ['a', '\x7f', 'b'] 4 0) ∧
    32 ≤ ('\x7f').toNat := by
  decide

/-- Claim C8 is false as stated: the interrupt byte 3 read while the
escape sub-machine is draining is consumed by the drain branch — no
`KeyboardInterrupt` is raised, falsifying the "if and only if that
byte is read" direction. -/
theorem interrupt_masked_in_escape :
    step 2 80 (EditorState.mk [] 2 2) '\x03' =
      StepResult.more (EditorState.mk [] 2 1) ∧
    StepResult.more (EditorState.mk [] 2 1) ≠ StepResult.interrupt := by
  decide

/-- Claim C9 is false as stated: the breaking-change note is a
long-form section, yet the code appends it verbatim while the claimed
assembler word-wraps it — the two differ already on the content
`"aa bb"` at wrap width 3. -/
theorem buildCommitMessage_breaking_unwrapped :
    buildCommitMessage ([], []) ([], []) ([], [])
        (['B'], ['a', 'a', ' ', 'b', 'b']) 3 ≠
      claimBuildCommitMessage ([], []) ([], []) ([], [])
        (['B'], ['a', 'a', ' ', 'b', 'b']) 3 := by
  decide

/- ------------------------------------------------------------------
   Invariant machinery for the editor loop
   ------------------------------------------------------------------ -/

/-- A property preserved by each step holds at every entry of the
`scanl` trace (the state after every keystroke). -/
theorem scanl_inv {α β : Type} (f : α → β → α) (P : α → Prop)
    (hf : ∀ a b, P a → P (f a b)) :
    ∀ (l : List β) (a : α), P a → ∀ x ∈ List.scanl f a l, P x := by
  intro l
  induction l with
  | nil =>
    intro a ha x hx
    rw [List.scanl_nil] at hx
    simp only [List.mem_singleton] at hx
    exact hx ▸ ha
  | cons b t ih =>
    intro a ha x hx
    rw [List.scanl_cons] at hx
    rcases List.mem_append.mp hx with h | h
    · simp only [List.mem_singleton] at h
      exact h ▸ ha
    · exact ih (f a b) (hf a b ha) x h

/-- Each keystroke preserves the capacity bound
`len(buffer) + len(prompt) ≤ maxLength`. -/
theorem stepState_capacity (lenPre len0 : Nat) (s : EditorState) (c : Char)
    (h : s.userInput.length + lenPre ≤ len0) :
    (stepState lenPre len0 s c).userInput.length + lenPre ≤ len0 := by
  unfold stepState step
  split_ifs <;>
    simp_all [List.length_append, List.length_take, List.length_drop] <;>
    omega

/-- Each keystroke preserves the cursor bounds
`len(prompt) ≤ cursor ≤ len(prompt) + len(buffer)`. -/
theorem stepState_cursor (lenPre len0 : Nat) (s : EditorState) (c : Char)
    (h1 : lenPre ≤ s.cursorPos)
    (h2 : s.cursorPos ≤ lenPre + s.userInput.length) :
    lenPre ≤ (stepState lenPre len0 s c).cursorPos ∧
      (stepState lenPre len0 s c).cursorPos ≤
        lenPre + (stepState lenPre len0 s c).userInput.length := by
  unfold stepState step
  split_ifs <;>
    simp_all [List.length_append, List.length_take, List.length_drop] <;>
    omega

/-- The seed truncation `inputText[:(length - len(prefix))]` keeps the
initial state under the ceiling whenever the prompt itself fits. -/
theorem initState_capacity (pfx : List Char) (len0 : Nat) (inputText : List Char)
    (h : pfx.length ≤ len0) :
    (initState pfx len0 inputText).userInput.length + pfx.length ≤ len0 := by
  simp only [initState, pySliceTo]
  have h0 : (0 : Int) ≤ (len0 : Int) - pfx.length := by omega
  rw [if_pos h0]
  have ht : ((len0 : Int) - pfx.length).toNat = len0 - pfx.length := by omega
  simp only [ht, List.length_take]
  omega

/-- Claim C2 (amended): provided the prompt itself fits under the
ceiling (`len(prefix) + 2 ≤ maxLength`), the invariant
`len(buffer) + len(prompt) ≤ maxLength` holds after every keystroke of
any keystroke sequence — printable insertions included — and a
printable character arriving at the ceiling is dropped with no error. -/
theorem getInput_capacity_inv (p0 : List Char) (len0 : Nat)
    (inputText keys : List Char) (hfit : p0.length + 2 ≤ len0) :
    ∀ s ∈ List.scanl (stepState (p0 ++ colonSpace).length len0)
        (initState (p0 ++ colonSpace) len0 inputText) keys,
      s.userInput.length + (p0 ++ colonSpace).length ≤ len0 := by
  refine scanl_inv (stepState (p0 ++ colonSpace).length len0)
    (fun s => s.userInput.length + (p0 ++ colonSpace).length ≤ len0)
    (fun a b ha => stepState_capacity _ _ a b ha) keys _ ?_
  refine initState_capacity _ _ _ ?_
  have hlen : (p0 ++ colonSpace).length = p0.length + 2 := by simp [colonSpace]
  omega

/-- Witness for C2 at a concrete field: empty label, ceiling 6. -/
theorem getInput_capacity_inv_witness :
    (initState ([] ++ colonSpace) 6 []).userInput.length
      + (([] ++ colonSpace : List Char)).length ≤ 6 :=
  getInput_capacity_inv [] 6 [] ['a'] (by decide) _ (by decide)

/-- Claim C3: for every keystroke sequence the cursor satisfies
`len(prompt) ≤ cursor ≤ len(prompt) + len(buffer)` after every
keystroke; moreover left-arrow is clamped at the first editable
character and right-arrow at one past the last buffer character. -/
theorem getInput_cursor_bounds (p0 : List Char) (len0 : Nat)
    (inputText keys : List Char) :
    (∀ s ∈ List.scanl (stepState (p0 ++ colonSpace).length len0)
        (initState (p0 ++ colonSpace) len0 inputText) keys,
      (p0 ++ colonSpace).length ≤ s.cursorPos ∧
        s.cursorPos ≤ (p0 ++ colonSpace).length + s.userInput.length) ∧
    (∀ s : EditorState, 0 < s.escapeNext →
      s.cursorPos = (p0 ++ colonSpace).length →
      (stepState (p0 ++ colonSpace).length len0 s 'D').cursorPos = s.cursorPos) ∧
    (∀ s : EditorState, 0 < s.escapeNext →
      s.cursorPos = (p0 ++ colonSpace).length + s.userInput.length →
      (stepState (p0 ++ colonSpace).length len0 s 'C').cursorPos = s.cursorPos) := by
  refine ⟨?_, ?_, ?_⟩
  · refine scanl_inv (stepState (p0 ++ colonSpace).length len0)
      (fun s => (p0 ++ colonSpace).length ≤ s.cursorPos ∧
        s.cursorPos ≤ (p0 ++ colonSpace).length + s.userInput.length)
      (fun a b ha => stepState_cursor _ _ a b ha.1 ha.2) keys _ ?_
    simp [initState]
  · intro s h1 h2
    have hne : ¬ (('D').toNat = 68 ∧ (p0 ++ colonSpace).length < s.cursorPos) := by
      rintro ⟨-, hlt⟩; omega
    have hne2 : ¬ (('D').toNat = 67 ∧
        s.cursorPos < (p0 ++ colonSpace).length + s.userInput.length) := by
      rintro ⟨hc, -⟩; exact absurd hc (by decide)
    unfold stepState step
    rw [if_pos h1, if_neg hne, if_neg hne2]
  · intro s h1 h2
    have hne : ¬ (('C').toNat = 68 ∧ (p0 ++ colonSpace).length < s.cursorPos) := by
      rintro ⟨hc, -⟩; exact absurd hc (by decide)
    have hne2 : ¬ (('C').toNat = 67 ∧
        s.cursorPos < (p0 ++ colonSpace).length + s.userInput.length) := by
      rintro ⟨-, hlt⟩; omega
    unfold stepState step
    rw [if_pos h1, if_neg hne, if_neg hne2]

/-- Witness for C3, exercising the invariant and both clamps. -/
theorem getInput_cursor_bounds_witness :
    ((['f'] ++ colonSpace).length ≤ (EditorState.mk ['a'] 4 0).cursorPos ∧
      (EditorState.mk ['a'] 4 0).cursorPos ≤
        (['f'] ++ colonSpace).length + (EditorState.mk ['a'] 4 0).userInput.length) ∧
    (stepState (['f'] ++ colonSpace).length 10 (EditorState.mk [] 3 1) 'D').cursorPos =
      (EditorState.mk [] 3 1).cursorPos ∧
    (stepState (['f'] ++ colonSpace).length 10 (EditorState.mk ['a'] 4 1) 'C').cursorPos =
      (EditorState.mk ['a'] 4 1).cursorPos :=
  ⟨(getInput_cursor_bounds ['f'] 10 [] ['a']).1 _ (by decide),
   (getInput_cursor_bounds ['f'] 10 [] ['a']).2.1 _ (by decide) (by decide),
   (getInput_cursor_bounds ['f'] 10 [] ['a']).2.2 _ (by decide) (by decide)⟩

/-- Claim C4 (amended): a byte arriving while the escape machine is at
`remaining = 2` never changes the buffer and is discarded — unless it
is itself an arrow code: `68` moves the cursor left and `67` right
(each clamped), because the code compares every draining byte against
the arrow codes. -/
theorem escape_drain_step (lenPre len0 : Nat) (s : EditorState) (c : Char)
    (h : s.escapeNext = 2) :
    step lenPre len0 s c = StepResult.more
      (EditorState.mk s.userInput
        (if c.toNat = 68 ∧ lenPre < s.cursorPos then s.cursorPos - 1
         else if c.toNat = 67 ∧ s.cursorPos < lenPre + s.userInput.length then
           s.cursorPos + 1
         else s.cursorPos) 1) := by
  unfold step
  rw [if_pos (by omega : 0 < s.escapeNext)]
  split_ifs <;> simp [h]

/-- Witness for C4: the non-arrow middle byte `'Z'` leaves buffer and
cursor unchanged and only decrements the countdown. -/
theorem escape_drain_step_witness :
    step 2 80 (EditorState.mk ['a'] 3 2) 'Z' =
      StepResult.more (EditorState.mk ['a'] 3 1) :=
  (escape_drain_step 2 80 (EditorState.mk ['a'] 3 2) 'Z' rfl).trans (by decide)

/-- Claim C7 (amended): outside an escape sequence, a character `x`
with `32 ≤ code` AND `code ≠ 127` (127 is caught by the backspace
branch first), arriving when the field is not at its ceiling, is
spliced into the buffer at the cursor offset `k` and the cursor
advances by one. -/
theorem insert_at_cursor (lenPre len0 k : Nat) (s : EditorState) (x : Char)
    (hesc : s.escapeNext = 0) (hx : 32 ≤ x.toNat) (hdel : x.toNat ≠ 127)
    (hcap : s.userInput.length + lenPre ≠ len0)
    (hk : s.cursorPos = lenPre + k) :
    step lenPre len0 s x = StepResult.more
      (EditorState.mk (s.userInput.take k ++ x :: s.userInput.drop k)
        (lenPre + k + 1) 0) := by
  unfold step
  rw [if_neg (by omega : ¬ 0 < s.escapeNext), if_neg hdel,
    if_neg (by omega : ¬ x.toNat = 13), if_neg (by omega : ¬ x.toNat = 27),
    if_neg (by omega : ¬ x.toNat = 3), if_neg hcap, if_pos hx]
  simp [hk, hesc, Nat.add_sub_cancel_left]

/-- Witness for C7: inserting `'X'` mid-buffer at offset 1. -/
theorem insert_at_cursor_witness :
    step 2 80 (EditorState.mk ['a', 'b'] 3 0) 'X' =
      StepResult.more (EditorState.mk ['a', 'X', 'b'] 4 0) :=
  (insert_at_cursor 2 80 1 (EditorState.mk ['a', 'b'] 3 0) 'X' rfl (by decide)
    (by decide) (by decide) rfl).trans (by decide)

/-- Claim C8 (amended): the editor raises `KeyboardInterrupt` on a
keystroke if and only if the byte is 3 AND the escape machine is not
draining; and `getChar` restores the saved terminal settings on every
exit path. -/
theorem interrupt_iff_and_restore :
    (∀ (lenPre len0 : Nat) (s : EditorState) (c : Char),
      step lenPre len0 s c = StepResult.interrupt ↔
        (s.escapeNext = 0 ∧ c.toNat = 3)) ∧
    (∀ t : Terminal, (getChar t).2.settings = t.settings) := by
  constructor
  · intro lenPre len0 s c
    constructor
    · intro h
      unfold step at h
      split_ifs at h
      all_goals simp_all
    · rintro ⟨h0, h3⟩
      unfold step
      rw [if_neg (by omega : ¬ 0 < s.escapeNext),
        if_neg (by omega : ¬ c.toNat = 127), if_neg (by omega : ¬ c.toNat = 13),
        if_neg (by omega : ¬ c.toNat = 27), if_pos h3]
  · intro t
    cases t with
    | mk st pend => cases pend <;> rfl

/-- Witness for C8: a Ctrl-C in the normal state interrupts, and a
`getChar` call hands the terminal back with its original settings. -/
theorem interrupt_iff_and_restore_witness :
    step 2 80 (EditorState.mk [] 2 0) '\x03' = StepResult.interrupt ∧
    (getChar (Terminal.mk 7 ['q'])).2.settings = 7 :=
  ⟨(interrupt_iff_and_restore.1 2 80 (EditorState.mk [] 2 0) '\x03').mpr (by decide),
   interrupt_iff_and_restore.2 (Terminal.mk 7 ['q'])⟩

/-- Claim C10: the non-editable part actually used and returned by
`getInput` is the caller's argument with `': '` appended — whenever a
pair is returned it is `(prefix ++ ': ', buffer)` — and the length
ceiling counts those two extra characters: with
`len(buffer) + (len(prefix) + 2) = length`, any byte that reaches the
capacity test is dropped. -/
theorem getInput_contract :
    (∀ (p0 : List Char) (len0 : Nat) (inputText keys p buf : List Char),
      getInput p0 len0 inputText keys = GetInputResult.done p buf →
      p = p0 ++ colonSpace) ∧
    (∀ (p0 : List Char) (len0 : Nat) (s : EditorState) (c : Char),
      s.escapeNext = 0 → c.toNat ≠ 127 → c.toNat ≠ 13 → c.toNat ≠ 27 →
      c.toNat ≠ 3 → s.userInput.length + (p0.length + 2) = len0 →
      step (p0 ++ colonSpace).length len0 s c = StepResult.more s) := by
  constructor
  · intro p0 len0 inputText keys p buf h
    simp only [getInput] at h
    split at h <;> simp_all
  · intro p0 len0 s c h0 h127 h13 h27 h3 hsum
    have hlen : (p0 ++ colonSpace).length = p0.length + 2 := by simp [colonSpace]
    unfold step
    rw [if_neg (by omega : ¬ 0 < s.escapeNext), if_neg h127, if_neg h13,
      if_neg h27, if_neg h3, if_pos (by rw [hlen]; omega)]

/-- Witness for C10: a finished session returns the label with `': '`
appended, and a printable byte at the ceiling is dropped. -/
theorem getInput_contract_witness :
    (['a', ':', ' '] : List Char) = ['a'] ++ colonSpace ∧
    step (['b'] ++ colonSpace).length 4 (EditorState.mk ['x'] 4 0) 'y' =
      StepResult.more (EditorState.mk ['x'] 4 0) :=
  ⟨getInput_contract.1 ['a'] 10 [] ['\r'] ['a', ':', ' '] [] (by decide),
   getInput_contract.2 ['b'] 4 (EditorState.mk ['x'] 4 0) 'y' rfl (by decide)
     (by decide) (by decide) (by decide) (by decide)⟩

/-- Python floor division of two natural numbers is natural division. -/
theorem int_fdiv_natCast (a b : Nat) :
    Int.fdiv (a : Int) (b : Int) = ((a / b : Nat) : Int) :=
  (Int.ofNat_fdiv a b).symm

/-- Claim C1 (amended): for any terminal wide enough for a positive
effective width `W = columns - 5` and any cursor inside the line, the
renderer returns `rowCount = L / W + 1` (floor division plus one, one
more than `ceil(L / W)` at positive exact multiples and equal to it
otherwise) together with `cursorRow = cursor / W`; when `L = 0` the
row count is exactly 1. -/
theorem printMessageWrapped_rows (message : List Char) (cursorPos columns : Nat)
    (h6 : 6 ≤ columns) (hc : cursorPos ≤ message.length) :
    printMessageWrapped message cursorPos columns =
      some (((message.length / (columns - 5) + 1 : Nat) : Int),
            ((cursorPos / (columns - 5) : Nat) : Int)) ∧
    (message.length = 0 →
      printMessageWrapped message cursorPos columns = some (1, 0)) := by
  have hW : 1 ≤ columns - 5 := by omega
  have hmain : printMessageWrapped message cursorPos columns =
      some (((message.length / (columns - 5) + 1 : Nat) : Int),
            ((cursorPos / (columns - 5) : Nat) : Int)) := by
    simp only [printMessageWrapped]
    have hcols : (columns : Int) - 5 = ((columns - 5 : Nat) : Int) := by omega
    rw [hcols]
    rw [if_neg (by omega : ¬ (((columns - 5 : Nat) : Int) = 0))]
    rw [int_fdiv_natCast, int_fdiv_natCast]
    have hd : cursorPos / (columns - 5) ≤ message.length / (columns - 5) :=
      Nat.div_le_div_right hc
    have he : (0 : Int) ≤ ((cursorPos / (columns - 5) : Nat) : Int) :=
      Int.ofNat_zero_le _
    have hd2 : ((cursorPos / (columns - 5) : Nat) : Int) ≤
        ((message.length / (columns - 5) : Nat) : Int) := Int.ofNat_le.mpr hd
    have hcond : -(max (((message.length / (columns - 5) : Nat) : Int) + 1) 0) ≤
        ((cursorPos / (columns - 5) : Nat) : Int) ∧
        ((cursorPos / (columns - 5) : Nat) : Int) <
          max (((message.length / (columns - 5) : Nat) : Int) + 1) 0 := by
      constructor <;> omega
    rw [if_pos hcond]
    push_cast
    rfl
  refine ⟨hmain, fun h0 => ?_⟩
  rw [hmain]
  have hc0 : cursorPos = 0 := by omega
  simp [h0, hc0]

/-- Witness for C1: a 5-character line at terminal width 10 renders as
2 rows with the cursor on row 0. -/
theorem printMessageWrapped_rows_witness :
    printMessageWrapped ['h', 'e', 'l', 'l', 'o'] 2 10 = some (2, 0) ∧
    printMessageWrapped [] 0 10 = some (1, 0) :=
  ⟨((printMessageWrapped_rows ['h', 'e', 'l', 'l', 'o'] 2 10 (by decide)
      (by decide)).1).trans (by decide),
   (printMessageWrapped_rows [] 0 10 (by decide) (by decide)).2 (by decide)⟩

/-- Every chunk produced by `chunksAux` stays within the width: the
chunk under construction always has its length plus its remaining
capacity bounded by `w`. -/
theorem chunksAux_len (w : Nat) (hw : 1 ≤ w) :
    ∀ (l cur : List Char) (k : Nat), cur.length + k ≤ w →
      ∀ chunk ∈ chunksAux w l cur k, chunk.length ≤ w := by
  intro l
  induction l with
  | nil =>
    intro cur k hck chunk hc
    rw [show chunksAux w [] cur k
        = if cur = [] then [] else [cur.reverse] from rfl] at hc
    split_ifs at hc
    · simp at hc
    · simp only [List.mem_singleton] at hc
      subst hc
      simp only [List.length_reverse]
      omega
  | cons c rest ih =>
    intro cur k hck chunk
    cases k with
    | zero =>
      intro hc
      rw [show chunksAux w (c :: rest) cur 0
          = cur.reverse :: chunksAux w rest [c] (w - 1) from rfl] at hc
      rcases List.mem_cons.mp hc with h | h
      · subst h
        simp only [List.length_reverse]
        omega
      · exact ih [c] (w - 1) (by simp; omega) chunk h
    | succ k' =>
      intro hc
      rw [show chunksAux w (c :: rest) cur (k' + 1)
          = chunksAux w rest (c :: cur) k' from rfl] at hc
      exact ih (c :: cur) k' (by simp; omega) chunk hc

/-- Greedy filling never exceeds the width when no word does. -/
theorem fillGreedy_len (w : Nat) :
    ∀ (words : List (List Char)) (cur : List Char), cur.length ≤ w →
      (∀ word ∈ words, word.length ≤ w) →
      ∀ line ∈ fillGreedy w cur words, line.length ≤ w := by
  intro words
  induction words with
  | nil =>
    intro cur hc _ line hl
    rw [show fillGreedy w cur [] = if cur = [] then [] else [cur] from rfl] at hl
    split_ifs at hl
    · simp at hl
    · simp only [List.mem_singleton] at hl
      subst hl
      exact hc
  | cons word rest ih =>
    intro cur hc hw line hl
    rw [show fillGreedy w cur (word :: rest)
        = (if cur = [] then fillGreedy w word rest
           else if cur.length + 1 + word.length ≤ w then
             fillGreedy w (cur ++ ' ' :: word) rest
           else cur :: fillGreedy w word rest) from rfl] at hl
    split_ifs at hl with h1 h2
    · exact ih word (hw word (by simp)) (fun x hx => hw x (by simp [hx])) line hl
    · refine ih (cur ++ ' ' :: word) ?_ (fun x hx => hw x (by simp [hx])) line hl
      simp only [List.length_append, List.length_cons]
      omega
    · rcases List.mem_cons.mp hl with h | h
      · subst h
        exact hc
      · exact ih word (hw word (by simp)) (fun x hx => hw x (by simp [hx])) line h

/-- Every line produced by the wrap model has at most `w` characters
(for a positive width). -/
theorem textwrapWrap_len (text : List Char) (w : Nat) (hw : 1 ≤ w) :
    ∀ line ∈ textwrapWrap text w, line.length ≤ w := by
  intro line hl
  unfold textwrapWrap at hl
  refine fillGreedy_len w _ [] (by simp) ?_ line hl
  intro word hword
  rcases List.mem_flatMap.mp hword with ⟨orig, -, hchunk⟩
  have hmax : max 1 w = w := by omega
  have hb := chunksAux_len (max 1 w) (by omega) orig [] (max 1 w)
    (by simp) word hchunk
  omega

/-- `intercalate` on a one-element list. -/
theorem intercalate_one (sep a : List Char) : List.intercalate sep [a] = a := by
  simp [List.intercalate]

/-- `intercalate` on a two-element list. -/
theorem intercalate_two (sep a b : List Char) :
    List.intercalate sep [a, b] = a ++ sep ++ b := by
  simp [List.intercalate]

/-- `intercalate` on a three-element list. -/
theorem intercalate_three (sep a b c : List Char) :
    List.intercalate sep [a, b, c] = a ++ sep ++ b ++ sep ++ c := by
  simp [List.intercalate]

/-- `intercalate` on a four-element list. -/
theorem intercalate_four (sep a b c d : List Char) :
    List.intercalate sep [a, b, c, d] = a ++ sep ++ b ++ sep ++ c ++ sep ++ d := by
  simp [List.intercalate]

/-- Claim C9 (amended): `buildCommitMessage` joins the title line and
the non-empty sections with blank-line separation, omitting sections
with empty content; the description — and only the description — is
word-wrapped, to lines of at most the configured width, while the
issue and breaking-change contents are appended verbatim after their
prefix. -/
theorem buildCommitMessage_sections (t d i b : List Char × List Char) (w : Nat) :
    buildCommitMessage t d i b w =
      List.intercalate ['\n', '\n'] ((t.1 ++ t.2) ::
        (([(d.2, List.intercalate ['\n'] (textwrapWrap d.2 w)),
           (i.2, i.1 ++ colonSpace ++ i.2),
           (b.2, b.1 ++ colonSpace ++ b.2)] :
            List (List Char × List Char)).filterMap
          (fun sec => if sec.1 = [] then none else some sec.2))) ∧
    (1 ≤ w → ∀ line ∈ textwrapWrap d.2 w, line.length ≤ w) := by
  constructor
  · by_cases hd : d.2 = [] <;> by_cases hi : i.2 = [] <;> by_cases hb : b.2 = [] <;>
      simp [buildCommitMessage, hd, hi, hb, List.filterMap_cons,
        intercalate_one, intercalate_two, intercalate_three, intercalate_four]
  · intro hw
    exact textwrapWrap_len d.2 w hw

/-- Witness for C9: the two-character description `"hi"` wrapped at
width 5 stays within the width. -/
theorem buildCommitMessage_sections_witness :
    (['h', 'i'] : List Char).length ≤ 5 :=
  (buildCommitMessage_sections ([], []) ([], ['h', 'i']) ([], []) ([], []) 5).2
    (by decide) ['h', 'i'] (by decide)

/-- Claim C5 (amended): with `maxLength = 6` and the empty label, the
effective prompt is `': '` (length 2), so typing `"abcdef"` then `"g"`
and Enter leaves the buffer `"abcd"`: every character from the fifth
on is dropped because `2 + 4 = 6` reaches the ceiling. -/
theorem getInput_scenario_abcd :
    getInput [] 6 [] ['a', 'b', 'c', 'd', 'e', 'f', 'g', '\r'] =
      GetInputResult.done [':', ' '] ['a', 'b', 'c', 'd'] := by
  decide
